import Mathlib

/-!
Verification of the `diligent` terminal-bench adapter
(`tools/terminal-bench/src/diligent_tbench/agent.py`, class `DiligentAgent`).

The adapter has three parts: a binary resolver (`_resolve_binary_path`), an
invocation builder (`create_run_agent_commands`) and a usage aggregator
(`populate_context_post_run`).  Each is shallowly embedded below.

Modelling conventions:
* the ambient process environment (`os.environ`) is a function
  `String → Option String` (`.get` semantics);
* the filesystem `Path.exists` test is a function `String → Bool`;
* the `git rev-parse --show-toplevel` call is an `Option String`
  (`none` covers both `CalledProcessError` and `FileNotFoundError`);
* Python string dicts are modelled by their lookup functions;
* JSON values parsed by `json.loads` are the inductive `JVal`
  (numbers are modelled as integers — no claim involves floats);
* a raised-and-uncaught Python exception is `Option.none` of the result.
-/

/-- The single-quote character, `U+0027`. -/
def squoteChar : Char := Char.ofNat 39

/-- The double-quote character, `U+0022`. -/
def dquoteChar : Char := Char.ofNat 34

/-- The space character. -/
def spaceChar : Char := Char.ofNat 32

/- ----------------------------------------------------------------
   Binary resolver: `DiligentAgent._resolve_binary_path`
   ---------------------------------------------------------------- -/

/-- The two distinct `FileNotFoundError` raise sites of
`_resolve_binary_path`, each carrying the raised message. -/
inductive ResolveErr
  | overrideMissing (msg : String)
  | notFound (msg : String)
deriving DecidableEq, Repr

/-- The message of the final `raise FileNotFoundError(...)` in
`_resolve_binary_path` (source lines 57-60). -/
def cannotFindMsg : String :=
  "Cannot find diligent-linux-x64 binary. Either set DILIGENT_BINARY_PATH or run \x27bun run build:linux-x64\x27 first."

/-- The auto-detect continuation of `_resolve_binary_path` (source lines
46-60): look for `dist/diligent-linux-x64` under the git repo root, else
raise the final `FileNotFoundError`.  `gitRoot` is the stripped output of
`git rev-parse --show-toplevel`, `none` when the `try` block's
`CalledProcessError`/`FileNotFoundError` path is taken. -/
def auto_detect_fallback (pathExists : String → Bool)
    (gitRoot : Option String) : Except ResolveErr String :=
  match gitRoot with
  | some root =>
      if pathExists (root ++ "/dist/diligent-linux-x64") then
        Except.ok (root ++ "/dist/diligent-linux-x64")
      else Except.error (ResolveErr.notFound cannotFindMsg)
  | none => Except.error (ResolveErr.notFound cannotFindMsg)

/-- Embedding of `DiligentAgent._resolve_binary_path`.

`environGet` is `os.environ.get` and `pathExists` is `Path.exists`.
Python's `if env_path:` is truthiness: `None` and the empty string both
fall through to the auto-detect branch. -/
def resolve_binary_path (environGet : String → Option String)
    (pathExists : String → Bool) (gitRoot : Option String) :
    Except ResolveErr String :=
  match environGet "DILIGENT_BINARY_PATH" with
  | some envPath =>
      if envPath ≠ "" then
        if pathExists envPath then Except.ok envPath
        else Except.error (ResolveErr.overrideMissing
          ("DILIGENT_BINARY_PATH=" ++ envPath ++ " does not exist"))
      else auto_detect_fallback pathExists gitRoot
  | none => auto_detect_fallback pathExists gitRoot

/-- `pat` is a prefix of `s` (on character lists). -/
def startsWithL : List Char → List Char → Bool
  | [], _ => true
  | _ :: _, [] => false
  | c :: cs, d :: ds => c = d && startsWithL cs ds

/-- `pat` occurs somewhere in `s` (on character lists). -/
def containsSubstrL (pat : List Char) : List Char → Bool
  | [] => startsWithL pat []
  | c :: s => startsWithL pat (c :: s) || containsSubstrL pat s

/-- `True` iff `pat` occurs as a contiguous substring of `s`. -/
def containsSubstr (s pat : String) : Bool :=
  containsSubstrL pat.toList s.toList

example : resolve_binary_path (fun _ => none) (fun _ => false) none
    = Except.error (ResolveErr.notFound cannotFindMsg) := by rfl

example : containsSubstr cannotFindMsg "DILIGENT_BINARY_PATH" = true := by rfl

example : containsSubstr cannotFindMsg "bun run build:linux-x64" = true := by rfl

/- ----------------------------------------------------------------
   Invocation builder: `DiligentAgent.create_run_agent_commands`
   ---------------------------------------------------------------- -/

/-- The tail of a character list after its first `/` (Python's
`model_id.split("/", 1)[1]` when a `/` is present). -/
def split_slash_tail : List Char → List Char
  | [] => []
  | c :: cs => if c = '/' then cs else split_slash_tail cs

/-- The model id placed under `DILIGENT_MODEL` (source lines 74-79):
if the configured name contains `/`, everything after the first `/`,
otherwise the name unchanged. -/
def derive_model_id (m : String) : String :=
  if m.toList.contains '/' then (split_slash_tail m.toList).asString else m

/-- A Python string dict, modelled by its lookup function (the overlay
is only ever consumed as a key-to-value mapping). -/
abbrev PyDict : Type := String → Option String

/-- The empty dict `{}`. -/
def dictEmpty : PyDict := fun _ => none

/-- Python dict assignment `d[k] = v`. -/
def dictSet (d : PyDict) (k v : String) : PyDict :=
  fun q => if q = k then some v else d q

/-- Python `d.update(e)`: assign every binding of `e` in order. -/
def dictUpdate : PyDict → List (String × String) → PyDict
  | d, [] => d
  | d, (k, v) :: rest => dictUpdate (dictSet d k v) rest

/-- Python dict lookup `d.get(k)`. -/
def dictGet (d : PyDict) (k : String) : Option String := d k

/-- The environment overlay of `create_run_agent_commands` (source lines
66-82): forward `ANTHROPIC_API_KEY` and `OPENAI_API_KEY` when present in
the ambient environment, derive `DILIGENT_MODEL` from a truthy
`model_name`, then apply the constructor-supplied `_extra_env` last. -/
def build_env_overlay (environGet : String → Option String)
    (modelName : Option String) (extraEnv : List (String × String)) :
    PyDict :=
  let env0 : PyDict := dictEmpty
  let env1 := match environGet "ANTHROPIC_API_KEY" with
    | some v => dictSet env0 "ANTHROPIC_API_KEY" v
    | none => env0
  let env2 := match environGet "OPENAI_API_KEY" with
    | some v => dictSet env1 "OPENAI_API_KEY" v
    | none => env1
  let env3 := match modelName with
    | some m => if m ≠ "" then dictSet env2 "DILIGENT_MODEL" (derive_model_id m) else env2
    | none => env2
  dictUpdate env3 extraEnv

/-- The safe-character class of `shlex.quote`: ASCII `\w` plus the
punctuation characters `@ % + = : , . / -`. -/
def shlexSafeChar (c : Char) : Bool :=
  (Char.ofNat 97 ≤ c && c ≤ Char.ofNat 122) ||
  (Char.ofNat 65 ≤ c && c ≤ Char.ofNat 90) ||
  (Char.ofNat 48 ≤ c && c ≤ Char.ofNat 57) ||
  c = '_' || c = '@' || c = '%' || c = '+' || c = '=' ||
  c = ':' || c = ',' || c = '.' || c = '/' || c = '-'

/-- `s.replace("'", "'\"'\"'")` on character lists. -/
def escSingleQuote : List Char → List Char
  | [] => []
  | c :: cs =>
      (if c = squoteChar then
        [squoteChar, dquoteChar, squoteChar, dquoteChar, squoteChar]
      else [c]) ++ escSingleQuote cs

/-- Python `shlex.quote` on character lists: empty becomes `''`, an
all-safe string is returned unchanged, anything else is wrapped in
single quotes with embedded single quotes escaped. -/
def shlexQuoteL (cs : List Char) : List Char :=
  if cs.isEmpty then [squoteChar, squoteChar]
  else if cs.all shlexSafeChar then cs
  else squoteChar :: (escSingleQuote cs ++ [squoteChar])

/-- Python `shlex.quote`. -/
def shlex_quote (s : String) : String := (shlexQuoteL s.toList).asString

/-- One element of the list returned by `create_run_agent_commands`
(harbor's `ExecInput`): command string, optional environment overlay,
timeout in seconds. -/
structure ExecInput where
  command : String
  env : Option PyDict
  timeout_sec : Nat

/-- The agent-run command `f"/installed-agent/diligent --prompt {escaped}"`. -/
def agentRunCommand (instruction : String) : String :=
  "/installed-agent/diligent --prompt " ++ shlex_quote instruction

/-- The log-collection command (source lines 92-96). -/
def collectLogsCommand (outputDir : String) : String :=
  "mkdir -p " ++ outputDir ++
    "/sessions && find / -path \x27*/.diligent/sessions/*.jsonl\x27 -exec cp \x7b\x7d " ++
    outputDir ++ "/sessions/ \\; 2>/dev/null; true"

/-- Embedding of `DiligentAgent.create_run_agent_commands`.  `environGet`
is `os.environ.get`, `modelName` is `self.model_name` (`none` or empty
means unconfigured), `extraEnv` is `self._extra_env`, `outputDir` is
harbor's `EnvironmentPaths.agent_dir`. -/
def create_run_agent_commands (environGet : String → Option String)
    (modelName : Option String) (extraEnv : List (String × String))
    (outputDir : String) (instruction : String) : List ExecInput :=
  [ { command := agentRunCommand instruction,
      env := some (build_env_overlay environGet modelName extraEnv),
      timeout_sec := 600 },
    { command := collectLogsCommand outputDir,
      env := none,
      timeout_sec := 30 } ]

/- A minimal POSIX-style shell argument tokenizer, used to state that the
built command round-trips the instruction: words split on spaces, single
quotes are literal until the closing quote, double quotes are literal
until the closing double quote.  Returns `none` on an unclosed quote. -/

/-- Tokenizer mode: outside quotes, inside single quotes, inside double
quotes. -/
inductive QMode
  | norm
  | single
  | double
deriving DecidableEq, Repr

/-- Shell-tokenizer worker over input, mode, current-word accumulator,
whether a word has started, and the words emitted so far. -/
def shTokAux : List Char → QMode → List Char → Bool → List (List Char) →
    Option (List (List Char))
  | [], QMode.norm, acc, inWord, words =>
      some (if inWord then words ++ [acc] else words)
  | [], QMode.single, _, _, _ => none
  | [], QMode.double, _, _, _ => none
  | c :: rest, QMode.norm, acc, inWord, words =>
      if c = spaceChar then
        (if inWord then shTokAux rest QMode.norm [] false (words ++ [acc])
         else shTokAux rest QMode.norm [] false words)
      else if c = squoteChar then shTokAux rest QMode.single acc true words
      else if c = dquoteChar then shTokAux rest QMode.double acc true words
      else shTokAux rest QMode.norm (acc ++ [c]) true words
  | c :: rest, QMode.single, acc, inWord, words =>
      if c = squoteChar then shTokAux rest QMode.norm acc inWord words
      else shTokAux rest QMode.single (acc ++ [c]) inWord words
  | c :: rest, QMode.double, acc, inWord, words =>
      if c = dquoteChar then shTokAux rest QMode.norm acc inWord words
      else shTokAux rest QMode.double (acc ++ [c]) inWord words

/-- Tokenize a command string into its shell words. -/
def shTokenize (s : String) : Option (List String) :=
  match shTokAux s.toList QMode.norm [] false [] with
  | some ws => some (ws.map List.asString)
  | none => none

example : shlex_quote "hello" = "hello" := by rfl

example : shlex_quote "a b; $x" = "\x27a b; $x\x27" := by rfl

example : shlex_quote "it\x27s" = "\x27it\x27\x22\x27\x22\x27s\x27" := by rfl

example : shTokenize (agentRunCommand "say \x27hi\x27; rm $x") =
    some ["/installed-agent/diligent", "--prompt", "say \x27hi\x27; rm $x"] := by rfl

example : derive_model_id "anthropic/claude-x" = "claude-x" := by rfl

/- ----------------------------------------------------------------
   Usage aggregator: `DiligentAgent.populate_context_post_run`
   ---------------------------------------------------------------- -/

/-- A JSON value as produced by `json.loads`.  Numbers are modelled as
integers (no claim involves floats); `bool` is kept separate because
Python treats `bool` as an `int` in arithmetic. -/
inductive JVal
  | null
  | bool (b : Bool)
  | num (n : Int)
  | str (s : String)
  | arr (xs : List JVal)
  | obj (fields : List (String × JVal))

/-- Lookup in a parsed JSON object; on duplicate keys `json.loads` keeps
the last occurrence, so the last binding wins. -/
def objGet (fields : List (String × JVal)) (k : String) : Option JVal :=
  fields.foldl (fun acc p => if p.1 = k then some p.2 else acc) none

/-- Python `v == "lit"` for an optional JSON value (as in
`entry.get("type") != "message"`): true exactly when the value is
present and is that string. -/
def optEqStr (v : Option JVal) (lit : String) : Bool :=
  match v with
  | some (JVal.str s) => s = lit
  | _ => false

/-- The integer a JSON value contributes under Python's `int += value`:
numbers add themselves, booleans add 0/1 (`bool` is an `int` subclass),
anything else raises `TypeError` (`none`). -/
def toAddable : JVal → Option Int
  | JVal.num n => some n
  | JVal.bool b => some (if b then 1 else 0)
  | _ => none

/-- The three running accumulators of `populate_context_post_run`. -/
structure Totals where
  input : Int
  output : Int
  cache : Int
deriving DecidableEq, Repr

/-- Componentwise sum of totals. -/
def Totals.add (a b : Totals) : Totals :=
  { input := a.input + b.input, output := a.output + b.output,
    cache := a.cache + b.cache }

/-- The zero totals (`total_input = total_output = total_cache = 0`). -/
def Totals.zero : Totals := { input := 0, output := 0, cache := 0 }

/-- The loop body of `populate_context_post_run` for one parsed line
(source lines 121-133): skip non-`message` entries and non-`assistant`
roles, otherwise add the four usage fields (missing fields default 0).
`none` models an uncaught Python exception (`.get` on a non-dict, or
`+=` of a non-numeric value). -/
def procEntry (t : Totals) (entry : JVal) : Option Totals :=
  match entry with
  | JVal.obj fs =>
      if !(optEqStr (objGet fs "type") "message") then some t
      else
        match (objGet fs "message").getD (JVal.obj []) with
        | JVal.obj ms =>
            if !(optEqStr (objGet ms "role") "assistant") then some t
            else
              match (objGet ms "usage").getD (JVal.obj []) with
              | JVal.obj us =>
                  match toAddable ((objGet us "inputTokens").getD (JVal.num 0)),
                        toAddable ((objGet us "outputTokens").getD (JVal.num 0)),
                        toAddable ((objGet us "cacheReadTokens").getD (JVal.num 0)),
                        toAddable ((objGet us "cacheWriteTokens").getD (JVal.num 0)) with
                  | some i, some o, some cr, some cw =>
                      some { input := t.input + i, output := t.output + o,
                             cache := t.cache + cr + cw }
                  | _, _, _, _ => none
              | _ => none
        | _ => none
  | _ => none

/-- One stripped line of a session `.jsonl` file, as the loop sees it:
blank (skipped before parsing), malformed (`json.loads` raises
`JSONDecodeError`, caught and skipped), or a parsed JSON value. -/
inductive LineV
  | blank
  | malformed
  | parsed (j : JVal)

/-- Process one line (source lines 113-133): blank and malformed lines
leave the totals unchanged. -/
def procLine (t : Totals) : LineV → Option Totals
  | LineV.blank => some t
  | LineV.malformed => some t
  | LineV.parsed j => procEntry t j

/-- One session file is its list of stripped lines. -/
abbrev SessionFile : Type := List LineV

/-- Fold the line loop over one file's lines. -/
def aggLines : List LineV → Totals → Option Totals
  | [], t => some t
  | l :: ls, t =>
      match procLine t l with
      | none => none
      | some t2 => aggLines ls t2

/-- Fold the file loop over the globbed `*.jsonl` files. -/
def aggFiles : List SessionFile → Totals → Option Totals
  | [], t => some t
  | f :: fs, t =>
      match aggLines f t with
      | none => none
      | some t2 => aggFiles fs t2

/-- The result context fields written by `populate_context_post_run`
(harbor's `AgentContext` token fields). -/
structure AgentCtx where
  n_input_tokens : Int
  n_output_tokens : Int
  n_cache_tokens : Option Int
deriving DecidableEq, Repr

/-- Modelled from the spec: the fresh result context the host harness
passes in (harbor's `AgentContext` is not under `src/`); its token
totals start zero/absent, matching the spec's "return zero/absent totals
immediately" for a missing sessions directory. -/
def AgentCtx.init : AgentCtx :=
  { n_input_tokens := 0, n_output_tokens := 0, n_cache_tokens := none }

/-- Embedding of `DiligentAgent.populate_context_post_run`.
`sessionsDir` is `none` when `logs_dir/sessions` does not exist and
otherwise the list of files matched by `glob("*.jsonl")` (in the order
the glob yields them).  The result is `none` when an exception escapes
(the context is then never written). -/
def populate_context_post_run (sessionsDir : Option (List SessionFile))
    (ctx : AgentCtx) : Option AgentCtx :=
  match sessionsDir with
  | none => some ctx
  | some files =>
      match aggFiles files Totals.zero with
      | none => none
      | some t =>
          some { n_input_tokens := t.input, n_output_tokens := t.output,
                 n_cache_tokens := if 0 < t.cache then some t.cache else none }

/-- The concrete session file of the spec's worked example: two
assistant messages with usage `{inputTokens:10, outputTokens:5}` and
`{inputTokens:3, outputTokens:2, cacheReadTokens:1}`, and one
user-role message with nonzero usage. -/
def exampleFile : SessionFile :=
  [ LineV.parsed (JVal.obj
      [ ("type", JVal.str "message"),
        ("message", JVal.obj
          [ ("role", JVal.str "assistant"),
            ("usage", JVal.obj
              [ ("inputTokens", JVal.num 10),
                ("outputTokens", JVal.num 5) ]) ]) ]),
    LineV.parsed (JVal.obj
      [ ("type", JVal.str "message"),
        ("message", JVal.obj
          [ ("role", JVal.str "assistant"),
            ("usage", JVal.obj
              [ ("inputTokens", JVal.num 3),
                ("outputTokens", JVal.num 2),
                ("cacheReadTokens", JVal.num 1) ]) ]) ]),
    LineV.parsed (JVal.obj
      [ ("type", JVal.str "message"),
        ("message", JVal.obj
          [ ("role", JVal.str "user"),
            ("usage", JVal.obj
              [ ("inputTokens", JVal.num 100),
                ("outputTokens", JVal.num 50) ]) ]) ]) ]

example : populate_context_post_run (some [exampleFile]) AgentCtx.init =
    some { n_input_tokens := 13, n_output_tokens := 7,
           n_cache_tokens := some 1 } := by rfl

example : populate_context_post_run (some []) AgentCtx.init =
    some { n_input_tokens := 0, n_output_tokens := 0,
           n_cache_tokens := none } := by rfl

/- ----------------------------------------------------------------
   Helper lemmas
   ---------------------------------------------------------------- -/

theorem auto_detect_fallback_ne_override (pathExists : String → Bool)
    (gitRoot : Option String) (msg : String) :
    auto_detect_fallback pathExists gitRoot ≠
      Except.error (ResolveErr.overrideMissing msg) := by
  cases gitRoot with
  | none => simp [auto_detect_fallback]
  | some root =>
      simp only [auto_detect_fallback]
      split <;> simp

/- ----------------------------------------------------------------
   Claims
   ---------------------------------------------------------------- -/

/-- C2: if `DILIGENT_BINARY_PATH` is configured (present and nonempty)
but the path does not exist, `_resolve_binary_path` fails with the
configuration `FileNotFoundError` naming the override, for every state
of the git-root fallback — it never falls back to discovery. -/
theorem c2_missing_override_is_hard_error
    (environGet : String → Option String) (pathExists : String → Bool)
    (p : String) (h1 : environGet "DILIGENT_BINARY_PATH" = some p)
    (h2 : p ≠ "") (h3 : pathExists p = false) :
    ∀ gitRoot : Option String,
      resolve_binary_path environGet pathExists gitRoot =
        Except.error (ResolveErr.overrideMissing
          ("DILIGENT_BINARY_PATH=" ++ p ++ " does not exist")) := by
  intro gitRoot
  simp [resolve_binary_path, h1, h2, h3]

theorem c2_missing_override_is_hard_error_witness :
    resolve_binary_path
      (fun k => if k = "DILIGENT_BINARY_PATH" then some "/nope" else none)
      (fun _ => false) (some "/repo") =
      Except.error (ResolveErr.overrideMissing
        ("DILIGENT_BINARY_PATH=" ++ "/nope" ++ " does not exist")) :=
  c2_missing_override_is_hard_error
    (fun k => if k = "DILIGENT_BINARY_PATH" then some "/nope" else none)
    (fun _ => false) "/nope" (by rfl) (by decide) (by rfl) (some "/repo")

/-- C3: with no override configured (unset or empty) and no existing
fallback candidate under the git root, `_resolve_binary_path` fails with
the `NotFound` error whose message names both remediation options. -/
theorem c3_discovery_failure_names_both_remedies
    (environGet : String → Option String) (pathExists : String → Bool)
    (gitRoot : Option String)
    (h1 : environGet "DILIGENT_BINARY_PATH" = none ∨
          environGet "DILIGENT_BINARY_PATH" = some "")
    (h2 : ∀ root, gitRoot = some root →
          pathExists (root ++ "/dist/diligent-linux-x64") = false) :
    resolve_binary_path environGet pathExists gitRoot =
      Except.error (ResolveErr.notFound cannotFindMsg) ∧
    containsSubstr cannotFindMsg "DILIGENT_BINARY_PATH" = true ∧
    containsSubstr cannotFindMsg "bun run build:linux-x64" = true := by
  refine ⟨?_, by rfl, by rfl⟩
  have hfb : auto_detect_fallback pathExists gitRoot =
      Except.error (ResolveErr.notFound cannotFindMsg) := by
    cases gitRoot with
    | none => rfl
    | some root => simp [auto_detect_fallback, h2 root rfl]
  rcases h1 with h1 | h1 <;> simp [resolve_binary_path, h1, hfb]

theorem c3_discovery_failure_names_both_remedies_witness :
    resolve_binary_path (fun _ => none) (fun _ => false) (some "/repo") =
      Except.error (ResolveErr.notFound cannotFindMsg) ∧
    containsSubstr cannotFindMsg "DILIGENT_BINARY_PATH" = true ∧
    containsSubstr cannotFindMsg "bun run build:linux-x64" = true :=
  c3_discovery_failure_names_both_remedies (fun _ => none) (fun _ => false)
    (some "/repo") (Or.inl rfl) (fun _ _ => rfl)

/-- C10: an empty-string `DILIGENT_BINARY_PATH` is treated as not
configured: resolution behaves exactly as with the variable unset, it
proceeds to the auto-detect fallback, and it never raises the
configuration (override-missing) error. -/
theorem c10_empty_override_treated_as_unset
    (environGet : String → Option String) (pathExists : String → Bool)
    (gitRoot : Option String)
    (h : environGet "DILIGENT_BINARY_PATH" = some "") :
    resolve_binary_path environGet pathExists gitRoot =
      auto_detect_fallback pathExists gitRoot ∧
    (∀ environGet2 : String → Option String,
       environGet2 "DILIGENT_BINARY_PATH" = none →
       resolve_binary_path environGet pathExists gitRoot =
         resolve_binary_path environGet2 pathExists gitRoot) ∧
    (∀ msg, resolve_binary_path environGet pathExists gitRoot ≠
       Except.error (ResolveErr.overrideMissing msg)) := by
  have h0 : resolve_binary_path environGet pathExists gitRoot =
      auto_detect_fallback pathExists gitRoot := by
    simp [resolve_binary_path, h]
  refine ⟨h0, ?_, ?_⟩
  · intro environGet2 h2
    rw [h0]; simp [resolve_binary_path, h2]
  · intro msg
    rw [h0]; exact auto_detect_fallback_ne_override pathExists gitRoot msg

theorem c10_empty_override_treated_as_unset_witness :
    resolve_binary_path (fun _ => some "") (fun _ => false) none =
      auto_detect_fallback (fun _ => false) none ∧
    (∀ environGet2 : String → Option String,
       environGet2 "DILIGENT_BINARY_PATH" = none →
       resolve_binary_path (fun _ => some "") (fun _ => false) none =
         resolve_binary_path environGet2 (fun _ => false) none) ∧
    (∀ msg, resolve_binary_path (fun _ => some "") (fun _ => false) none ≠
       Except.error (ResolveErr.overrideMissing msg)) :=
  c10_empty_override_treated_as_unset (fun _ => some "") (fun _ => false)
    none rfl

/-- C9: the overlay (and hence the whole command list) depends on the
ambient environment only through the two allow-listed credential
variables: ambient environments agreeing on `ANTHROPIC_API_KEY` and
`OPENAI_API_KEY` produce identical overlays and identical commands. -/
theorem c9_only_allowlisted_ambient_vars_matter
    (amb1 amb2 : String → Option String) (modelName : Option String)
    (extraEnv : List (String × String)) (outputDir instruction : String)
    (hA : amb1 "ANTHROPIC_API_KEY" = amb2 "ANTHROPIC_API_KEY")
    (hO : amb1 "OPENAI_API_KEY" = amb2 "OPENAI_API_KEY") :
    build_env_overlay amb1 modelName extraEnv =
      build_env_overlay amb2 modelName extraEnv ∧
    create_run_agent_commands amb1 modelName extraEnv outputDir instruction =
      create_run_agent_commands amb2 modelName extraEnv outputDir instruction := by
  have hov : build_env_overlay amb1 modelName extraEnv =
      build_env_overlay amb2 modelName extraEnv := by
    unfold build_env_overlay
    rw [hA, hO]
  exact ⟨hov, by unfold create_run_agent_commands; rw [hov]⟩

theorem c9_only_allowlisted_ambient_vars_matter_witness :
    build_env_overlay (fun k => if k = "HOME" then some "/root" else none)
        (some "anthropic/claude-x") [] =
      build_env_overlay (fun _ => none) (some "anthropic/claude-x") [] ∧
    create_run_agent_commands (fun k => if k = "HOME" then some "/root" else none)
        (some "anthropic/claude-x") [] "/logs/agent" "do it" =
      create_run_agent_commands (fun _ => none) (some "anthropic/claude-x")
        [] "/logs/agent" "do it" :=
  c9_only_allowlisted_ambient_vars_matter
    (fun k => if k = "HOME" then some "/root" else none) (fun _ => none)
    (some "anthropic/claude-x") [] "/logs/agent" "do it" (by rfl) (by rfl)

/- Dictionary lookup lemmas for C5. -/

theorem dictGet_dictSet_self (d : PyDict) (k v : String) :
    dictGet (dictSet d k v) k = some v := by
  simp [dictGet, dictSet]

theorem dictGet_dictSet_ne (d : PyDict) (k2 v k : String) (h : k ≠ k2) :
    dictGet (dictSet d k2 v) k = dictGet d k := by
  simp [dictGet, dictSet, h]

theorem dictGet_dictUpdate_ne (k : String) :
    ∀ (extra : List (String × String)) (d : PyDict),
      (∀ p ∈ extra, p.1 ≠ k) →
      dictGet (dictUpdate d extra) k = dictGet d k := by
  intro extra
  induction extra with
  | nil => intro d _; rfl
  | cons p rest ih =>
      intro d hx
      obtain ⟨k2, v2⟩ := p
      have h1 : k2 ≠ k := hx (k2, v2) (List.mem_cons_self _ _)
      have h2 : ∀ q ∈ rest, q.1 ≠ k := fun q hq => hx q (List.mem_cons_of_mem _ hq)
      show dictGet (dictUpdate (dictSet d k2 v2) rest) k = dictGet d k
      rw [ih (dictSet d k2 v2) h2]
      exact dictGet_dictSet_ne d k2 v2 k (Ne.symm h1)

theorem split_slash_tail_eq_dropWhile :
    ∀ cs : List Char,
      split_slash_tail cs = (cs.dropWhile (fun c => c ≠ '/')).drop 1 := by
  intro cs
  induction cs with
  | nil => rfl
  | cons c cs ih =>
      by_cases hc : c = '/'
      · simp [split_slash_tail, List.dropWhile, hc]
      · simp [split_slash_tail, List.dropWhile, hc, ih]

/-- The spec's wording of the derived model value: "the identifier with
everything up to and including the first `/` removed when a `/` is
present, and the identifier unchanged when no `/` is present". -/
def specModelValue (m : String) : String :=
  if m.toList.contains '/' then
    ((m.toList.dropWhile (fun c => c ≠ '/')).drop 1).asString
  else m

theorem derive_model_id_eq_spec (m : String) :
    derive_model_id m = specModelValue m := by
  unfold derive_model_id specModelValue
  rw [split_slash_tail_eq_dropWhile]

/-- C5: whenever a model identifier is configured (truthy) and the
caller-supplied extra environment does not itself bind
`DILIGENT_MODEL`, the overlay's `DILIGENT_MODEL` value is the identifier
with everything up to and including the first `/` removed when a `/` is
present, and the identifier unchanged otherwise; in particular
`"anthropic/claude-x"` gives `"claude-x"` and `"claude-x"` stays
`"claude-x"`. -/
theorem c5_model_variable_strips_provider
    (environGet : String → Option String) (m : String)
    (extraEnv : List (String × String)) (hm : m ≠ "")
    (hx : ∀ p ∈ extraEnv, p.1 ≠ "DILIGENT_MODEL") :
    dictGet (build_env_overlay environGet (some m) extraEnv)
        "DILIGENT_MODEL" = some (specModelValue m) ∧
    specModelValue "anthropic/claude-x" = "claude-x" ∧
    specModelValue "claude-x" = "claude-x" := by
  refine ⟨?_, by rfl, by rfl⟩
  rw [← derive_model_id_eq_spec]
  unfold build_env_overlay
  simp only [hm, if_true, ne_eq, not_false_iff]
  rw [dictGet_dictUpdate_ne "DILIGENT_MODEL" extraEnv _ hx]
  exact dictGet_dictSet_self _ "DILIGENT_MODEL" (derive_model_id m)

theorem c5_model_variable_strips_provider_witness :
    dictGet (build_env_overlay (fun _ => none) (some "anthropic/claude-x") [])
        "DILIGENT_MODEL" = some (specModelValue "anthropic/claude-x") ∧
    specModelValue "anthropic/claude-x" = "claude-x" ∧
    specModelValue "claude-x" = "claude-x" :=
  c5_model_variable_strips_provider (fun _ => none) "anthropic/claude-x" []
    (by decide) (by simp)

/- Totals arithmetic. -/

theorem totals_add_zero (t : Totals) : Totals.add t Totals.zero = t := by
  cases t
  simp only [Totals.add, Totals.zero, Totals.mk.injEq]
  omega

theorem totals_add_assoc (a b c : Totals) :
    Totals.add (Totals.add a b) c = Totals.add a (Totals.add b c) := by
  cases a; cases b; cases c
  simp only [Totals.add, Totals.mk.injEq]
  omega

theorem totals_add_right_comm (t a b : Totals) :
    Totals.add (Totals.add t a) b = Totals.add (Totals.add t b) a := by
  cases t; cases a; cases b
  simp only [Totals.add, Totals.mk.injEq]
  omega

/- The per-entry update only ever adds amounts that depend on the entry
alone, so processing from `t` is processing from zero plus `t`. -/

theorem procEntry_shift (t : Totals) (j : JVal) :
    procEntry t j =
      Option.map (fun d => Totals.add t d) (procEntry Totals.zero j) := by
  cases j with
  | obj fs =>
      by_cases h1 : optEqStr (objGet fs "type") "message"
      · cases hm : (objGet fs "message").getD (JVal.obj []) with
        | obj ms =>
            by_cases h2 : optEqStr (objGet ms "role") "assistant"
            · cases hu : (objGet ms "usage").getD (JVal.obj []) with
              | obj us =>
                  cases hi : toAddable ((objGet us "inputTokens").getD (JVal.num 0)) with
                  | none => simp [procEntry, h1, hm, h2, hu, hi]
                  | some i =>
                    cases ho : toAddable ((objGet us "outputTokens").getD (JVal.num 0)) with
                    | none => simp [procEntry, h1, hm, h2, hu, hi, ho]
                    | some o =>
                      cases hr : toAddable ((objGet us "cacheReadTokens").getD (JVal.num 0)) with
                      | none => simp [procEntry, h1, hm, h2, hu, hi, ho, hr]
                      | some cr =>
                        cases hw : toAddable ((objGet us "cacheWriteTokens").getD (JVal.num 0)) with
                        | none => simp [procEntry, h1, hm, h2, hu, hi, ho, hr, hw]
                        | some cw =>
                            simp only [procEntry, h1, hm, h2, hu, hi, ho, hr, hw,
                              Bool.not_true, Bool.false_eq_true, if_false,
                              Option.map_some']
                            cases t
                            simp only [Totals.add, Totals.zero, Option.some.injEq,
                              Totals.mk.injEq]
                            omega
              | null => simp [procEntry, h1, hm, h2, hu]
              | bool b => simp [procEntry, h1, hm, h2, hu]
              | num n => simp [procEntry, h1, hm, h2, hu]
              | str s => simp [procEntry, h1, hm, h2, hu]
              | arr xs => simp [procEntry, h1, hm, h2, hu]
            · simp [procEntry, h1, hm, h2, totals_add_zero]
        | null => simp [procEntry, h1, hm]
        | bool b => simp [procEntry, h1, hm]
        | num n => simp [procEntry, h1, hm]
        | str s => simp [procEntry, h1, hm]
        | arr xs => simp [procEntry, h1, hm]
      · simp [procEntry, h1, totals_add_zero]
  | null => simp [procEntry]
  | bool b => simp [procEntry]
  | num n => simp [procEntry]
  | str s => simp [procEntry]
  | arr xs => simp [procEntry]

theorem procLine_shift (t : Totals) (l : LineV) :
    procLine t l =
      Option.map (fun d => Totals.add t d) (procLine Totals.zero l) := by
  cases l with
  | blank => simp [procLine, totals_add_zero]
  | malformed => simp [procLine, totals_add_zero]
  | parsed j => exact procEntry_shift t j

theorem aggLines_shift :
    ∀ (ls : List LineV) (t : Totals),
      aggLines ls t =
        Option.map (fun d => Totals.add t d) (aggLines ls Totals.zero) := by
  intro ls
  induction ls with
  | nil => intro t; simp [aggLines, totals_add_zero]
  | cons l ls ih =>
      intro t
      simp only [aggLines]
      rw [procLine_shift t l]
      cases h0 : procLine Totals.zero l with
      | none => simp
      | some d =>
          simp only [Option.map_some']
          rw [ih (Totals.add t d), ih d]
          cases h1 : aggLines ls Totals.zero with
          | none => simp
          | some u => simp [totals_add_assoc]

theorem aggFiles_swap (a b : SessionFile) (fs : List SessionFile)
    (t : Totals) : aggFiles (a :: b :: fs) t = aggFiles (b :: a :: fs) t := by
  simp only [aggFiles]
  rw [aggLines_shift a t, aggLines_shift b t]
  cases h1 : aggLines a Totals.zero with
  | none =>
      cases h2 : aggLines b Totals.zero with
      | none => simp
      | some db => simp [aggLines_shift a (Totals.add t db), h1]
  | some da =>
      cases h2 : aggLines b Totals.zero with
      | none => simp [aggLines_shift b (Totals.add t da), h2]
      | some db =>
          simp only [Option.map_some']
          rw [aggLines_shift b (Totals.add t da), h2,
            aggLines_shift a (Totals.add t db), h1]
          simp only [Option.map_some']
          rw [totals_add_right_comm]

theorem aggFiles_perm {fs1 fs2 : List SessionFile} (h : fs1.Perm fs2) :
    ∀ t, aggFiles fs1 t = aggFiles fs2 t := by
  induction h with
  | nil => intro t; rfl
  | cons x h ih =>
      intro t
      simp only [aggFiles]
      cases h0 : aggLines x t with
      | none => rfl
      | some t2 => exact ih t2
  | swap x y l => intro t; exact aggFiles_swap y x l t
  | trans h1 h2 ih1 ih2 => intro t; rw [ih1 t, ih2 t]

theorem aggLines_malformed (post : List LineV) :
    ∀ (pre : List LineV) (t : Totals),
      aggLines (pre ++ LineV.malformed :: post) t = aggLines (pre ++ post) t := by
  intro pre
  induction pre with
  | nil => intro t; simp [aggLines, procLine]
  | cons l pre ih =>
      intro t
      simp only [List.cons_append, aggLines]
      cases h0 : procLine t l with
      | none => rfl
      | some t2 => exact ih t2

theorem aggFiles_mid (f g : SessionFile) (fsR : List SessionFile)
    (hfg : ∀ t, aggLines f t = aggLines g t) :
    ∀ (fsL : List SessionFile) (t : Totals),
      aggFiles (fsL ++ f :: fsR) t = aggFiles (fsL ++ g :: fsR) t := by
  intro fsL
  induction fsL with
  | nil =>
      intro t
      simp only [List.nil_append, aggFiles]
      rw [hfg t]
  | cons a fsL ih =>
      intro t
      simp only [List.cons_append, aggFiles]
      cases h0 : aggLines a t with
      | none => rfl
      | some t2 => exact ih t2

/-- C1: over an empty or nonexistent sessions directory, the populated
result context carries input-total 0, output-total 0, and an absent
cache total.  (For a nonexistent directory the code returns before
writing; the fresh harness context's totals are already zero/absent.) -/
theorem c1_empty_or_missing_dir_zero_totals
    (dir : Option (List SessionFile))
    (h : dir = none ∨ dir = some []) :
    populate_context_post_run dir AgentCtx.init =
      some { n_input_tokens := 0, n_output_tokens := 0,
             n_cache_tokens := none } := by
  rcases h with h | h <;> subst h <;> rfl

theorem c1_empty_or_missing_dir_zero_totals_witness :
    ((none : Option (List SessionFile)) = none ∨
      (none : Option (List SessionFile)) = some []) ∧
    populate_context_post_run none AgentCtx.init =
      some { n_input_tokens := 0, n_output_tokens := 0,
             n_cache_tokens := none } :=
  ⟨Or.inl rfl, c1_empty_or_missing_dir_zero_totals none (Or.inl rfl)⟩

/-- C6: on the spec's worked example (two assistant messages with usage
10/5 and 3/2 plus cacheRead 1, and one nonzero-usage user message) the
aggregation reports input 13, output 7, cache present with value 1; and
in general the written cache field is the accumulated cache sum when
that sum is strictly positive and absent otherwise. -/
theorem c6_example_totals_and_cache_presence :
    (∀ ctx, populate_context_post_run (some [exampleFile]) ctx =
        some { n_input_tokens := 13, n_output_tokens := 7,
               n_cache_tokens := some 1 }) ∧
    (∀ (files : List SessionFile) (t : Totals) (ctx ctx2 : AgentCtx),
        aggFiles files Totals.zero = some t →
        populate_context_post_run (some files) ctx = some ctx2 →
        (0 < t.cache → ctx2.n_cache_tokens = some t.cache) ∧
        (t.cache ≤ 0 → ctx2.n_cache_tokens = none)) := by
  constructor
  · intro ctx; rfl
  · intro files t ctx ctx2 h1 h2
    simp only [populate_context_post_run, h1, Option.some.injEq] at h2
    constructor
    · intro hc
      rw [← h2]
      simp [hc]
    · intro hc
      rw [← h2]
      simp [not_lt.mpr hc]

theorem c6_example_totals_and_cache_presence_witness :
    populate_context_post_run (some [exampleFile]) AgentCtx.init =
      some { n_input_tokens := 13, n_output_tokens := 7,
             n_cache_tokens := some 1 } ∧
    (AgentCtx.mk 13 7 (some 1)).n_cache_tokens = some 1 :=
  ⟨c6_example_totals_and_cache_presence.1 AgentCtx.init,
   (c6_example_totals_and_cache_presence.2 [exampleFile]
      (Totals.mk 13 7 1) AgentCtx.init (AgentCtx.mk 13 7 (some 1))
      (by rfl) (by rfl)).1 (by decide)⟩

/-- C7: a malformed line anywhere in any session file is silently
skipped: the aggregated context is the same as for the directory content
with that line removed. -/
theorem c7_malformed_line_is_ignored
    (fsL fsR : List SessionFile) (pre post : List LineV) (ctx : AgentCtx) :
    populate_context_post_run
        (some (fsL ++ (pre ++ LineV.malformed :: post) :: fsR)) ctx =
      populate_context_post_run (some (fsL ++ (pre ++ post) :: fsR)) ctx := by
  simp only [populate_context_post_run]
  rw [aggFiles_mid (pre ++ LineV.malformed :: post) (pre ++ post) fsR
    (fun t => aggLines_malformed post pre t) fsL Totals.zero]

/-- C8: aggregation is order-independent (permuting the globbed files
leaves the populated context unchanged) and idempotent (re-running it on
the context it produced reproduces that context). -/
theorem c8_order_independent_and_idempotent :
    (∀ (fs1 fs2 : List SessionFile) (ctx : AgentCtx), fs1.Perm fs2 →
        populate_context_post_run (some fs1) ctx =
          populate_context_post_run (some fs2) ctx) ∧
    (∀ (dir : Option (List SessionFile)) (ctx ctx2 : AgentCtx),
        populate_context_post_run dir ctx = some ctx2 →
        populate_context_post_run dir ctx2 = some ctx2) := by
  constructor
  · intro fs1 fs2 ctx h
    simp only [populate_context_post_run]
    rw [aggFiles_perm h Totals.zero]
  · intro dir ctx ctx2 h
    cases dir with
    | none =>
        simp only [populate_context_post_run, Option.some.injEq] at h
        subst h
        rfl
    | some files =>
        simp only [populate_context_post_run] at h ⊢
        cases h0 : aggFiles files Totals.zero with
        | none => rw [h0] at h; exact absurd h (by simp)
        | some t => rw [h0] at h; exact h

theorem c8_order_independent_and_idempotent_witness :
    List.Perm [exampleFile, ([] : SessionFile)] [([] : SessionFile), exampleFile] ∧
    populate_context_post_run (some [exampleFile, ([] : SessionFile)]) AgentCtx.init =
      populate_context_post_run (some [([] : SessionFile), exampleFile]) AgentCtx.init ∧
    populate_context_post_run (some [exampleFile]) (AgentCtx.mk 13 7 (some 1)) =
      some (AgentCtx.mk 13 7 (some 1)) :=
  ⟨List.Perm.swap ([] : SessionFile) exampleFile [],
   c8_order_independent_and_idempotent.1 [exampleFile, ([] : SessionFile)]
     [([] : SessionFile), exampleFile] AgentCtx.init
     (List.Perm.swap ([] : SessionFile) exampleFile []),
   c8_order_independent_and_idempotent.2 (some [exampleFile]) AgentCtx.init
     (AgentCtx.mk 13 7 (some 1)) (by rfl)⟩

/- String/char facts for the shell round-trip claim. -/

theorem toList_append (a b : String) :
    (a ++ b).toList = a.toList ++ b.toList := rfl

theorem toList_asString (l : List Char) : (List.asString l).toList = l := rfl

theorem asString_toList (s : String) : s.toList.asString = s := by
  cases s
  rfl

theorem asString_data (s : String) : s.data.asString = s := by
  cases s
  rfl

theorem safe_ne_space {c : Char} (h : shlexSafeChar c = true) :
    c ≠ spaceChar := by
  intro he
  subst he
  exact absurd h (by decide)

theorem safe_ne_squote {c : Char} (h : shlexSafeChar c = true) :
    c ≠ squoteChar := by
  intro he
  subst he
  exact absurd h (by decide)

theorem safe_ne_dquote {c : Char} (h : shlexSafeChar c = true) :
    c ≠ dquoteChar := by
  intro he
  subst he
  exact absurd h (by decide)

theorem sq_ne_sp : ¬(squoteChar = spaceChar) := by decide

theorem sq_ne_dq : ¬(squoteChar = dquoteChar) := by decide

theorem dq_ne_sp : ¬(dquoteChar = spaceChar) := by decide

theorem dq_ne_sq : ¬(dquoteChar = squoteChar) := by decide

/- Tokenizing behaviour of the three `shlex.quote` output shapes. -/

theorem shTok_safe_word :
    ∀ (cs : List Char), cs.all shlexSafeChar = true →
      ∀ (acc : List Char) (words : List (List Char)),
        shTokAux cs QMode.norm acc true words = some (words ++ [acc ++ cs]) := by
  intro cs
  induction cs with
  | nil => intro _ acc words; simp [shTokAux]
  | cons c cs ih =>
      intro hall acc words
      simp only [List.all_cons, Bool.and_eq_true] at hall
      obtain ⟨hc, hcs⟩ := hall
      simp only [shTokAux, if_neg (safe_ne_space hc),
        if_neg (safe_ne_squote hc), if_neg (safe_ne_dquote hc)]
      rw [ih hcs (acc ++ [c]) words]
      simp

theorem shTok_esc :
    ∀ (cs rest acc : List Char) (words : List (List Char)),
      shTokAux (escSingleQuote cs ++ squoteChar :: rest) QMode.single acc
          true words =
        shTokAux rest QMode.norm (acc ++ cs) true words := by
  intro cs
  induction cs with
  | nil => intro rest acc words; simp [escSingleQuote, shTokAux]
  | cons c cs ih =>
      intro rest acc words
      by_cases hc : c = squoteChar
      · subst hc
        simp only [escSingleQuote, if_pos rfl, List.cons_append,
          List.append_assoc]
        simp only [shTokAux, sq_ne_sp, sq_ne_dq, dq_ne_sp, dq_ne_sq,
          eq_self_iff_true, if_true, if_false, ite_true, ite_false,
          List.nil_append]
        have h5 := ih rest (acc ++ [squoteChar]) words
        rw [List.append_assoc] at h5
        exact h5
      · simp only [escSingleQuote, if_neg hc, List.singleton_append,
          List.cons_append, List.nil_append]
        simp only [shTokAux, if_neg hc]
        rw [ih rest (acc ++ [c]) words]
        simp

theorem shTok_quote (cs : List Char) (words : List (List Char)) :
    shTokAux (shlexQuoteL cs) QMode.norm [] false words =
      some (words ++ [cs]) := by
  unfold shlexQuoteL
  by_cases h0 : cs.isEmpty
  · have h0e : cs = [] := by
      cases cs with
      | nil => rfl
      | cons c cs => exact absurd h0 (by simp [List.isEmpty])
    subst h0e
    simp [shTokAux, sq_ne_sp]
  · simp only [h0, if_false, ite_false, Bool.false_eq_true]
    by_cases h1 : cs.all shlexSafeChar
    · simp only [h1, if_true, ite_true]
      cases cs with
      | nil => exact (h0 rfl).elim
      | cons c cs =>
          simp only [List.all_cons, Bool.and_eq_true] at h1
          obtain ⟨hc, hcs⟩ := h1
          simp only [shTokAux, if_neg (safe_ne_space hc),
            if_neg (safe_ne_squote hc), if_neg (safe_ne_dquote hc),
            List.nil_append]
          rw [shTok_safe_word cs hcs [c] words]
          simp
    · simp only [h1, if_false, ite_false, Bool.false_eq_true]
      show shTokAux (squoteChar :: (escSingleQuote cs ++ [squoteChar]))
          QMode.norm [] false words = some (words ++ [cs])
      simp only [shTokAux, sq_ne_sp, eq_self_iff_true, if_true, if_false,
        ite_true, ite_false]
      have : escSingleQuote cs ++ [squoteChar] =
          escSingleQuote cs ++ squoteChar :: [] := rfl
      rw [this, shTok_esc cs [] [] words]
      simp [shTokAux]

theorem shTok_cmd_pre (rest : List Char) :
    shTokAux ("/installed-agent/diligent --prompt ".toList ++ rest)
        QMode.norm [] false [] =
      shTokAux rest QMode.norm [] false
        ["/installed-agent/diligent".toList, "--prompt".toList] := rfl

/-- C4: for every instruction string, the built agent-run command parses
back (by a POSIX-style shell tokenizer) into exactly three words, the
third being the original instruction verbatim — the escaped instruction
always survives as one single argument after `--prompt`. -/
theorem c4_instruction_roundtrips_as_single_argument
    (environGet : String → Option String) (modelName : Option String)
    (extraEnv : List (String × String)) (outputDir instruction : String) :
    ∃ step rest,
      create_run_agent_commands environGet modelName extraEnv outputDir
          instruction = step :: rest ∧
      shTokenize step.command =
        some ["/installed-agent/diligent", "--prompt", instruction] := by
  refine ⟨_, _, rfl, ?_⟩
  show shTokenize (agentRunCommand instruction) = _
  simp only [shTokenize, agentRunCommand, shlex_quote]
  rw [toList_append, toList_asString, shTok_cmd_pre, shTok_quote]
  show some (List.map List.asString
      (["/installed-agent/diligent".toList, "--prompt".toList] ++
        [instruction.toList])) =
    some ["/installed-agent/diligent", "--prompt", instruction]
  rw [List.map_append, List.map_cons, List.map_cons, List.map_nil,
    List.map_cons, List.map_nil, asString_toList, asString_toList,
    asString_toList]
  rfl
